import Mathlib

/-!
Verification of the document-chat repository.

This file gives a shallow embedding of the client-side SSE stream decoder
(the body of the exported function streamChat) and of the server-side edge
function (serve, isValidGoogleDocsUrl, fetchGoogleDocContent), together with
theorems settling the frozen claims about them.

Modelling conventions for JavaScript runtime primitives that the source calls:

* JSON.parse together with the access path parsed.choices?.[0]?.delta?.content
  is abstracted as a parameter parse : List Char → Option (Option (List Char)).
  Here none models a parse exception (the catch branch), some none models a
  successfully parsed record without a truthy content fragment, and
  some (some c) models a record carrying the content fragment c.  The decoder
  itself re-checks truthiness (if (content) onDelta(content)), so a delta is
  only emitted when c is nonempty.
* TextDecoder with stream: true reassembles split multi-byte characters, so
  the decoder is modelled at character level: buffers and chunks are
  List Char, and a chunked transmission is a List (List Char).
* JavaScript strings on the server side are Lean Strings; their length is the
  number of characters (the inputs of interest are ASCII, where this agrees
  with the UTF-16 length used by JavaScript).
-/

/-- Whitespace characters removed by JavaScript trim (the ASCII ones; the
inputs the decoder meets contain no other whitespace). -/
def jsWs (c : Char) : Bool :=
  c = ' ' || c = '\t' || c = '\n' || c = '\r' || c = '\x0b' || c = '\x0c'

/-- Model of JavaScript s.trim(): strip trailing, then leading whitespace. -/
def trimList (l : List Char) : List Char :=
  ((l.reverse.dropWhile jsWs).reverse).dropWhile jsWs

/-- Model of the carriage-return strip in both loops of streamChat:
if the line ends with a carriage return, remove that one character. -/
def stripCR (l : List Char) : List Char :=
  if l.getLast? = some '\r' then l.dropLast else l

/-- The SSE data-line tag checked by line.startsWith in streamChat. -/
def dataPref : List Char := "data: ".toList

/-- The termination token compared against the trimmed payload. -/
def doneTok : List Char := "[DONE]".toList

/-- The action the reading loop of streamChat takes on one complete,
CR-stripped line. -/
inductive LineAct where
  | skip
  | finish
  | out (c : List Char)
  | fail
deriving DecidableEq

/-- Classification of one complete line, following the body of the reading
loop of streamChat in order: comment lines (leading colon), blank lines and
lines without the data tag are skipped; a payload equal to the termination
token finishes the stream; a successfully parsed record emits its content
fragment when that fragment is truthy (nonempty) and is otherwise skipped;
a payload whose parse throws is a parse failure. -/
def classifyLine (parse : List Char → Option (Option (List Char)))
    (line : List Char) : LineAct :=
  if line.head? = some ':' ∨ trimList line = [] then .skip
  else if dataPref.isPrefixOf line = false then .skip
  else
    let jsonStr := trimList (line.drop 6)
    if jsonStr = doneTok then .finish
    else
      match parse jsonStr with
      | some (some c) => if c = [] then .skip else .out c
      | some none => .skip
      | none => .fail

/-- The inner while loop of streamChat: repeatedly split the buffer at the
first newline and act on the extracted line.  The accumulator acc holds the
characters of the current line read so far, in reverse.  Returns the emitted
deltas in order, the remaining buffer, and whether a termination line was
classified.  On a parse failure the CR-stripped line is pushed back onto the
front of the buffer with its newline restored and the loop stops. -/
def drainLines (parse : List Char → Option (Option (List Char))) :
    List Char → List Char → List (List Char) × List Char × Bool
  | acc, [] => ([], acc.reverse, false)
  | acc, ch :: rest =>
    if ch = '\n' then
      let line := stripCR acc.reverse
      match classifyLine parse line with
      | .skip => drainLines parse [] rest
      | .finish => ([], rest, true)
      | .out c =>
        let r := drainLines parse [] rest
        (c :: r.1, r.2.1, r.2.2)
      | .fail => ([], line ++ '\n' :: rest, false)
    else
      drainLines parse (ch :: acc) rest

/-- One pass of the inner while loop over a buffer. -/
def drainBuffer (parse : List Char → Option (Option (List Char)))
    (buf : List Char) : List (List Char) × List Char × Bool :=
  drainLines parse [] buf

/-- The outer reading loop of streamChat: each received chunk is appended to
the buffer, which is then drained; the loop stops when the source is
exhausted or when a termination line was classified (in which case the
remaining chunks are never read). -/
def readLoop (parse : List Char → Option (Option (List Char))) :
    List (List Char) → List Char → List (List Char) × List Char × Bool
  | [], buf => ([], buf, false)
  | c :: cs, buf =>
    let r := drainBuffer parse (buf ++ c)
    if r.2.2 then r
    else
      let r2 := readLoop parse cs r.2.1
      (r.1 ++ r2.1, r2.2.1, r2.2.2)

/-- JavaScript s.split applied with a newline separator. -/
def splitOnNl : List Char → List (List Char)
  | [] => [[]]
  | c :: cs =>
    if c = '\n' then [] :: splitOnNl cs
    else (splitOnNl cs).modifyHead (c :: ·)

/-- The body of the final flush loop of streamChat for one raw piece of the
split buffer: the delta it emits, if any.  Empty pieces, comment and blank
lines, non-data lines, the termination token and payloads that fail to parse
all emit nothing. -/
def flushLine (parse : List Char → Option (Option (List Char)))
    (raw0 : List Char) : Option (List Char) :=
  if raw0 = [] then none
  else
    match classifyLine parse (stripCR raw0) with
    | .out c => some c
    | _ => none

/-- The final flush of streamChat: if the leftover buffer is not blank,
split it on newlines and emit the deltas of the pieces in order. -/
def flushBuffer (parse : List Char → Option (Option (List Char)))
    (buf : List Char) : List (List Char) :=
  if trimList buf = [] then []
  else (splitOnNl buf).filterMap (flushLine parse)

/-- The stream decoder of streamChat, as a function from the list of received
chunks to the ordered list of deltas delivered to the onDelta callback.  The
final flush runs on the leftover buffer unconditionally, exactly as in the
source. -/
def streamChat (parse : List Char → Option (Option (List Char)))
    (chunks : List (List Char)) : List (List Char) :=
  let r := readLoop parse chunks []
  r.1 ++ flushBuffer parse r.2.1

/-- Whether a raw piece is a line the reading loop would classify as the
termination token. -/
def isDoneLine (p : List Char) : Bool :=
  let l := stripCR p
  if l.head? = some ':' ∨ trimList l = [] then false
  else if dataPref.isPrefixOf l = false then false
  else decide (trimList (l.drop 6) = doneTok)

/-- The side condition for chunking-invariance of the decoder: whenever a
piece of the stream is a termination line, nothing follows it (the split
yields exactly one further piece, the empty partial line). -/
def okPiecesB : List (List Char) → Bool
  | [] => true
  | [_] => true
  | p :: ps => if isDoneLine p then decide (ps = [[]]) else okPiecesB ps

/-- A concrete record payload used in counterexamples and witnesses: the
JSON text of one upstream delta record carrying the fragment X. -/
def demoJson : List Char :=
  "\x7b\"choices\":[\x7b\"delta\":\x7b\"content\":\"X\"\x7d\x7d]\x7d".toList

/-- A concrete parse oracle matching what JSON.parse and the content access
path do on the payloads appearing in the counterexamples: demoJson parses to
a record with content fragment X, every other payload throws. -/
def demoParse (s : List Char) : Option (Option (List Char)) :=
  if s = demoJson then some (some ['X']) else none

/-- A chunk consisting of one complete termination line. -/
def doneChunk : List Char := "data: [DONE]\n".toList

/-- A chunk consisting of one complete data line carrying the fragment X. -/
def xChunk : List Char := dataPref ++ demoJson ++ ['\n']

/-- A chunk consisting of one malformed data line (its payload fails to
parse) followed by one complete data line carrying the fragment X. -/
def badChunk : List Char := dataPref ++ "bad\n".toList ++ xChunk

/-- A chunk consisting only of a protocol comment line and blank lines. -/
def commentChunk : List Char := ": hello\n\n\r\n".toList

/-- The first half of a data line split mid-record. -/
def splitChunkA : List Char := dataPref ++ demoJson.take 10

/-- The second half of a data line split mid-record. -/
def splitChunkB : List Char := demoJson.drop 10 ++ ['\n']

/-!  Server-side model: the edge function in the source file serving the
document-chat endpoint. -/

/-- The outcome of the JavaScript URL constructor, as far as the validator
consults it.  The constructor itself is a runtime primitive, abstracted as a
parameter of type String → Option URLParts (none models a parse throw). -/
structure URLParts where
  protocol : String
  hostname : String

/-- The hostname allow-list of isValidGoogleDocsUrl. -/
def allowedHosts : List String := ["docs.google.com", "drive.google.com"]

/-- Validates that the URL is a legitimate Google Docs URL, following the
source: parse the URL (a throw yields false), then require the hostname to be
in the allow-list and the protocol to be secure HTTP. -/
def isValidGoogleDocsUrl (parseURL : String → Option URLParts)
    (url : String) : Bool :=
  match parseURL url with
  | some parsed =>
    allowedHosts.contains parsed.hostname && decide (parsed.protocol = "https:")
  | none => false

/-- The character class of the capture groups in the document-id patterns. -/
def isIdChar (c : Char) : Bool := c.isAlphanum || c = '_' || c = '-'

/-- Leftmost-match search for one pattern of the shape: a literal followed by
a nonempty maximal run of id characters (the capture).  This is the semantics
of the regular expressions of fetchGoogleDocContent: at each position, if the
literal matches and at least one id character follows, the greedy capture is
returned; otherwise the search continues one position to the right. -/
def scanCapture (lit : List Char) : List Char → Option (List Char)
  | [] => none
  | c :: rest =>
    if lit.isPrefixOf (c :: rest) then
      let cap := ((c :: rest).drop lit.length).takeWhile isIdChar
      if cap = [] then scanCapture lit rest else some cap
    else scanCapture lit rest

/-- The literal of the path-embedded document-id pattern. -/
def docIdPat1 : List Char := "/document/d/".toList

/-- The literal of the query-parameter document-id pattern. -/
def docIdPat2 : List Char := "id=".toList

/-- Document-id extraction of fetchGoogleDocContent: try the path-embedded
pattern, the query-parameter pattern, then the bare-id pattern (the whole
string made of id characters), in that order; the first match wins. -/
def extractDocId (url : String) : Option String :=
  match scanCapture docIdPat1 url.toList with
  | some cap => some (String.mk cap)
  | none =>
    match scanCapture docIdPat2 url.toList with
    | some cap => some (String.mk cap)
    | none =>
      if url.toList ≠ [] ∧ url.toList.all isIdChar then some url else none

/-- Maximum document size, five megabytes. -/
def MAX_DOCUMENT_SIZE : Nat := 5 * 1024 * 1024

/-- The parts of an HTTP response to the document fetch that the source
consults: the status, the content-length header (none models an absent
header) and the body text. -/
structure FetchResp where
  status : Nat
  contentLength : Option String
  bodyText : String

/-- The error outcomes of fetchGoogleDocContent, one per distinct thrown
message in the source. -/
inductive DocErr where
  | invalidFormat
  | notFound
  | privateDoc
  | fetchFailed (status : Nat)
  | tooLarge
  | emptyDoc
deriving DecidableEq

/-- The exact message text thrown by the source for each error outcome. -/
def docErrMsg : DocErr → String
  | .invalidFormat => "Invalid Google Doc URL format"
  | .notFound => "Document not found. Please check the URL."
  | .privateDoc => "Document is private. Please make it publicly accessible."
  | .fetchFailed status => "Failed to fetch document: " ++ toString status
  | .tooLarge => "Document is too large to process."
  | .emptyDoc => "The document does not contain any usable information."

/-- The digit scan of JavaScript parseInt in base ten: the maximal leading
digit run, none when it is empty (NaN). -/
def digitsVal (l : List Char) : Option Nat :=
  let ds := l.takeWhile Char.isDigit
  if ds = [] then none
  else some (ds.foldl (fun a c => a * 10 + (c.toNat - 48)) 0)

/-- Model of JavaScript parseInt(s, 10): skip leading whitespace, allow one
sign, then read the maximal digit run; none models NaN. -/
def jsParseInt (s : String) : Option Int :=
  match s.toList.dropWhile jsWs with
  | '-' :: rest => (digitsVal rest).map (fun n => -(n : Int))
  | '+' :: rest => (digitsVal rest).map (fun n => (n : Int))
  | l => (digitsVal l).map (fun n => (n : Int))

/-- The content-length guard of the source: the header is present and truthy
and parses to a value strictly above the size limit.  A NaN comparison is
false, as in JavaScript. -/
def headerTooLarge (resp : FetchResp) : Bool :=
  match resp.contentLength with
  | none => false
  | some s =>
    if s = "" then false
    else
      match jsParseInt s with
      | none => false
      | some v => decide (v > (MAX_DOCUMENT_SIZE : Int))

/-- A chat message, as assembled by the edge function (the roles used are
system, user and assistant). -/
structure ChatMsg where
  role : String
  content : String
deriving DecidableEq

/-- The observable outbound effects of the edge function, recorded in order:
the document fetch (with the export URL it targets), the read of the fetched
body, and the upstream model call (with the messages array it sends). -/
inductive Effect where
  | docFetch (url : String)
  | readBody
  | aiFetch (messages : List ChatMsg)
deriving DecidableEq

/-- The plain-text export endpoint constructed from the document id. -/
def exportUrlOf (docId : String) : String :=
  "https://docs.google.com/document/d/" ++ docId ++ "/export?format=txt"

/-- JavaScript trim on a Lean String. -/
def jsTrim (s : String) : String := String.mk (trimList s.toList)

/-- Model of fetchGoogleDocContent: extract the document id, fetch the export
endpoint (the response is an oracle parameter; the ten-second abort timer is
not modelled, as no claim concerns it), map non-success statuses to errors,
reject on the declared content length before reading the body, then read the
body and re-check its actual size and non-emptiness.  The second component
records the outbound effects in order; the body read is recorded only when
the source reaches response.text(). -/
def fetchGoogleDocContent (url : String) (resp : FetchResp) :
    Except DocErr String × List Effect :=
  match extractDocId url with
  | none => (.error .invalidFormat, [])
  | some docId =>
    let evs := [Effect.docFetch (exportUrlOf docId)]
    if ¬ (200 ≤ resp.status ∧ resp.status ≤ 299) then
      if resp.status = 404 then (.error .notFound, evs)
      else if resp.status = 403 then (.error .privateDoc, evs)
      else (.error (.fetchFailed resp.status), evs)
    else if headerTooLarge resp then (.error .tooLarge, evs)
    else
      let content := resp.bodyText
      let evs2 := evs ++ [Effect.readBody]
      if content.length > MAX_DOCUMENT_SIZE then (.error .tooLarge, evs2)
      else if content = "" ∨ jsTrim content = "" then (.error .emptyDoc, evs2)
      else (.ok content, evs2)

/-- The fixed system instruction block sent as the first message. -/
def SYSTEM_PROMPT : String :=
  "You are an AI-powered document assistant that answers user questions strictly based on the content retrieved from a Google Document.\n\nCORE RULES:\n1. Use ONLY the provided document context when answering.\n2. If the answer is not present in the document, respond exactly with: \"This info isn\x27t in the document.\"\n3. NEVER use external knowledge or assumptions.\n4. Always provide concise, professional answers.\n\nCITATION REQUIREMENTS:\n- Every factual statement MUST include inline citations.\n- Use the format: (Section X.Y) or (Page X) based on document structure.\n- If multiple sections are used, cite all relevant sections.\n\nCONVERSATION HANDLING:\n- Maintain context from the conversation history provided.\n- If a user follow-up depends on prior context, resolve it correctly.\n- Do NOT repeat previous answers unless explicitly asked.\n\nQUERY CLARIFICATION:\n- If the user query is ambiguous or underspecified, ask ONE short clarifying question before answering.\n\nEDGE CASE HANDLING:\n- If the document content is empty, respond: \"The document does not contain any usable information.\"\n- If the document appears inaccessible, respond: \"Please provide a publicly accessible Google Doc link.\"\n\nTONE & STYLE:\n- Neutral, professional, and business-friendly.\n- No emojis, no casual language.\n- Short paragraphs, clear formatting.\n\nOUTPUT FORMAT:\n- Plain text response.\n- Answer first, citations at the end of sentences.\n- No markdown unless explicitly requested."

/-- The synthetic user message embedding the document text, with the framing
preamble and postamble of the source. -/
def docContextMsg (documentContent : String) : String :=
  "DOCUMENT CONTENT:\n\n" ++ documentContent ++
  "\n\n---\n\nPlease answer questions based ONLY on the above document content."

/-- The request body of the edge function; an absent field is none. -/
structure ReqBody where
  question : Option String
  documentUrl : Option String
  conversationHistory : List ChatMsg

/-- JavaScript truthiness of a possibly absent string: absent, undefined and
the empty string are all falsy. -/
def jsTruthy : Option String → Bool
  | none => false
  | some s => decide (s ≠ "")

/-- The environment of one serve invocation: the URL constructor, whether the
API key environment variable is set, the document-fetch response, and the
status and error body of the upstream model call. -/
structure ServeOracles where
  parseURL : String → Option URLParts
  hasApiKey : Bool
  docResp : FetchResp
  aiStatus : Nat
  aiErrorText : String

/-- The response the edge function returns to its caller: a JSON error body
with a status, or the relayed upstream stream. -/
inductive SResponse where
  | errJson (status : Nat) (message : String)
  | stream
deriving DecidableEq

deriving instance DecidableEq for Except

/-- Model of the request handler passed to serve (the POST path; the CORS
preflight branch and the JSON body parse are outside the claims).  Checks run
in source order: field presence, server-side URL validation, API key
presence, document fetch, context assembly, upstream call, upstream status
mapping.  The second component records the outbound effects in order.  The
upstream error text is only logged by the source, never returned, and is
accordingly not consulted. -/
def serve (env : ServeOracles) (body : ReqBody) : SResponse × List Effect :=
  if jsTruthy body.question = false ∨ jsTruthy body.documentUrl = false then
    (.errJson 400 "Question and document URL are required", [])
  else
    let u := body.documentUrl.getD ""
    if isValidGoogleDocsUrl env.parseURL u = false then
      (.errJson 400 "Invalid document URL. Please provide a valid Google Docs URL.", [])
    else if env.hasApiKey = false then
      (.errJson 500 "Service temporarily unavailable", [])
    else
      match fetchGoogleDocContent u env.docResp with
      | (.error e, evs) => (.errJson 400 (docErrMsg e), evs)
      | (.ok documentContent, evs) =>
        let recentHistory :=
          body.conversationHistory.drop (body.conversationHistory.length - 10)
        let messages : List ChatMsg :=
          ⟨"system", SYSTEM_PROMPT⟩ ::
          ⟨"user", docContextMsg documentContent⟩ ::
          (recentHistory ++ [⟨"user", body.question.getD ""⟩])
        let evs2 := evs ++ [Effect.aiFetch messages]
        if ¬ (200 ≤ env.aiStatus ∧ env.aiStatus ≤ 299) then
          if env.aiStatus = 429 then
            (.errJson 429 "Too many requests. Please try again later.", evs2)
          else if env.aiStatus = 402 then
            (.errJson 402 "Service limit reached. Please try again later.", evs2)
          else
            (.errJson 500 "An error occurred processing your request", evs2)
        else (.stream, evs2)

/-- A URL-constructor oracle for witnesses: every string parses to a secure
URL on an untrusted host. -/
def evilParseURL : String → Option URLParts :=
  fun _ => some ⟨"https:", "evil.com"⟩

/-- A URL-constructor oracle for witnesses: every string parses to a secure
URL on the Google Docs host. -/
def docsParseURL : String → Option URLParts :=
  fun _ => some ⟨"https:", "docs.google.com"⟩

/-- A concrete serve environment used in witnesses: valid Google Docs URL
parse, API key present, a small successful document fetch, and a
rate-limited upstream model call. -/
def demoEnv : ServeOracles :=
  { parseURL := docsParseURL,
    hasApiKey := true,
    docResp := { status := 200, contentLength := none, bodyText := "doc text" },
    aiStatus := 429,
    aiErrorText := "upstream detail" }

/-- A concrete oversized document body used in witnesses: one more character
than the five-megabyte limit. -/
def bigBody : String := String.mk (List.replicate 5242881 'a')

/-- A concrete twelve-message conversation history used in witnesses. -/
def demoHistory : List ChatMsg :=
  [⟨"user", "h1"⟩, ⟨"assistant", "h2"⟩, ⟨"user", "h3"⟩, ⟨"assistant", "h4"⟩,
   ⟨"user", "h5"⟩, ⟨"assistant", "h6"⟩, ⟨"user", "h7"⟩, ⟨"assistant", "h8"⟩,
   ⟨"user", "h9"⟩, ⟨"assistant", "h10"⟩, ⟨"user", "h11"⟩, ⟨"assistant", "h12"⟩]

/-!  Theorems about the server-side model. -/

/-- C10: a request whose question or documentUrl field is the empty string is
rejected with the same MissingField response (HTTP 400, no outbound effect)
as a request in which that field is absent, because the presence check treats
every falsy value as missing. -/
theorem serve_empty_fields_missing (env : ServeOracles) (q u : Option String)
    (hist : List ChatMsg) :
    serve env ⟨some "", u, hist⟩ =
      (.errJson 400 "Question and document URL are required", [])
    ∧ serve env ⟨none, u, hist⟩ =
      (.errJson 400 "Question and document URL are required", [])
    ∧ serve env ⟨q, some "", hist⟩ =
      (.errJson 400 "Question and document URL are required", [])
    ∧ serve env ⟨q, none, hist⟩ =
      (.errJson 400 "Question and document URL are required", []) := by
  refine ⟨?_, ?_, ?_, ?_⟩ <;> simp [serve, jsTruthy]

/-- C4: a request with present fields whose documentUrl does not validate is
rejected with the InvalidUrl response (HTTP 400) and no outbound effect is
performed; and the validator returns false whenever the URL fails to parse,
or its protocol is not secure HTTP, or its hostname is not exactly one of the
two allowed Google hosts. -/
theorem serve_rejects_invalid_url (env : ServeOracles) (body : ReqBody)
    (hq : jsTruthy body.question = true) (hu : jsTruthy body.documentUrl = true)
    (hvalid : isValidGoogleDocsUrl env.parseURL (body.documentUrl.getD "") = false) :
    serve env body =
      (.errJson 400 "Invalid document URL. Please provide a valid Google Docs URL.", [])
    ∧ ∀ (parseURL : String → Option URLParts) (url : String),
        (parseURL url = none ∨
          ∀ p, parseURL url = some p →
            p.protocol ≠ "https:" ∨
              (p.hostname ≠ "docs.google.com" ∧ p.hostname ≠ "drive.google.com")) →
        isValidGoogleDocsUrl parseURL url = false := by
  constructor
  · simp [serve, hq, hu, hvalid]
  · intro parseURL url h
    cases hp : parseURL url with
    | none => simp [isValidGoogleDocsUrl, hp]
    | some p =>
      rcases h with h | h
      · rw [hp] at h; exact absurd h (by simp)
      · rcases h p hp with h | ⟨h1, h2⟩ <;>
          simp [isValidGoogleDocsUrl, hp, allowedHosts, *]

/-- Witness for C4 at a concrete input: a secure URL on an untrusted host is
rejected before any outbound fetch. -/
theorem serve_rejects_invalid_url_witness :
    serve { demoEnv with parseURL := evilParseURL }
        ⟨some "q", some "https://evil.com/document/d/ABC123", []⟩ =
      (.errJson 400 "Invalid document URL. Please provide a valid Google Docs URL.", [])
    ∧ ∀ (parseURL : String → Option URLParts) (url : String),
        (parseURL url = none ∨
          ∀ p, parseURL url = some p →
            p.protocol ≠ "https:" ∨
              (p.hostname ≠ "docs.google.com" ∧ p.hostname ≠ "drive.google.com")) →
        isValidGoogleDocsUrl parseURL url = false :=
  serve_rejects_invalid_url { demoEnv with parseURL := evilParseURL }
    ⟨some "q", some "https://evil.com/document/d/ABC123", []⟩
    (by decide) (by decide) (by decide)

/-- C3: on the happy path the messages array sent to the upstream model is
exactly the fixed system prompt, one synthetic user message embedding the
document text with the framing preamble and postamble, the most recent ten
history entries verbatim in their original order, then the question as the
final user message; a history of twelve messages contributes exactly its last
ten entries. -/
theorem serve_messages_shape (env : ServeOracles) (q u doc : String)
    (hist : List ChatMsg) (evs : List Effect)
    (hq : q ≠ "") (hu : u ≠ "")
    (hvalid : isValidGoogleDocsUrl env.parseURL u = true)
    (hkey : env.hasApiKey = true)
    (hfetch : fetchGoogleDocContent u env.docResp = (.ok doc, evs)) :
    (serve env ⟨some q, some u, hist⟩).2 =
      evs ++ [Effect.aiFetch
        (⟨"system", SYSTEM_PROMPT⟩ :: ⟨"user", docContextMsg doc⟩ ::
          (hist.drop (hist.length - 10) ++ [⟨"user", q⟩]))]
    ∧ (hist.length = 12 → hist.drop (hist.length - 10) = hist.drop 2) := by
  constructor
  · simp [serve, jsTruthy, hq, hu, hvalid, hkey, hfetch, apply_ite Prod.snd]
  · intro h12; rw [h12]

/-- Witness for C3 at a concrete input: a twelve-message history contributes
exactly its last ten entries, between the document message and the question. -/
theorem serve_messages_shape_witness :
    (serve demoEnv
        ⟨some "q", some "https://docs.google.com/document/d/ABC123/edit",
          demoHistory⟩).2 =
      [Effect.docFetch (exportUrlOf "ABC123"), Effect.readBody] ++
        [Effect.aiFetch
          (⟨"system", SYSTEM_PROMPT⟩ :: ⟨"user", docContextMsg "doc text"⟩ ::
            (demoHistory.drop (demoHistory.length - 10) ++ [⟨"user", "q"⟩]))]
    ∧ (demoHistory.length = 12 →
        demoHistory.drop (demoHistory.length - 10) = demoHistory.drop 2) :=
  serve_messages_shape demoEnv "q" "https://docs.google.com/document/d/ABC123/edit"
    "doc text" demoHistory [Effect.docFetch (exportUrlOf "ABC123"), Effect.readBody]
    (by decide) (by decide) (by decide) (by decide) (by decide)

/-- C5: on the document fetch, status 404 yields DocumentNotFound, 403 yields
DocumentPrivate and any other non-success status yields FetchFailed; on the
model call, status 429 is returned as HTTP 429, 402 as HTTP 402, and any
other non-success status as HTTP 500 with a fixed body; the upstream error
text never influences the response. -/
theorem fetch_and_upstream_status_mapping :
    (∀ (url : String) (resp : FetchResp) (docId : String),
      extractDocId url = some docId →
      ¬ (200 ≤ resp.status ∧ resp.status ≤ 299) →
      (fetchGoogleDocContent url resp).1 =
        .error (if resp.status = 404 then .notFound
                else if resp.status = 403 then .privateDoc
                else .fetchFailed resp.status))
    ∧ (∀ (env : ServeOracles) (body : ReqBody) (doc : String) (evs : List Effect),
        jsTruthy body.question = true → jsTruthy body.documentUrl = true →
        isValidGoogleDocsUrl env.parseURL (body.documentUrl.getD "") = true →
        env.hasApiKey = true →
        fetchGoogleDocContent (body.documentUrl.getD "") env.docResp = (.ok doc, evs) →
        ¬ (200 ≤ env.aiStatus ∧ env.aiStatus ≤ 299) →
        (serve env body).1 =
          (if env.aiStatus = 429 then
            .errJson 429 "Too many requests. Please try again later."
          else if env.aiStatus = 402 then
            .errJson 402 "Service limit reached. Please try again later."
          else .errJson 500 "An error occurred processing your request"))
    ∧ (∀ (env : ServeOracles) (body : ReqBody) (t : String),
        serve { env with aiErrorText := t } body = serve env body) := by
  refine ⟨?_, ?_, ?_⟩
  · intro url resp docId hid hok
    simp [fetchGoogleDocContent, hid, hok, apply_ite Prod.fst,
      apply_ite (Except.error (α := String) (ε := DocErr))]
  · intro env body doc evs hq hu hvalid hkey hfetch hai
    simp [serve, hq, hu, hvalid, hkey, hfetch, hai, apply_ite Prod.fst]
  · intro env body t
    rfl

/-- Witness for C5 at concrete inputs: a 403 document fetch yields
DocumentPrivate, and a 500 upstream model status yields the fixed HTTP 500
body. -/
theorem fetch_and_upstream_status_mapping_witness :
    (fetchGoogleDocContent "https://docs.google.com/document/d/ABC123/edit"
        { status := 403, contentLength := none, bodyText := "" }).1 =
      .error (if (403 : Nat) = 404 then .notFound
              else if (403 : Nat) = 403 then .privateDoc
              else .fetchFailed 403)
    ∧ (serve { demoEnv with aiStatus := 500 }
        ⟨some "q", some "https://docs.google.com/document/d/ABC123/edit",
          demoHistory⟩).1 =
      (if (500 : Nat) = 429 then
        SResponse.errJson 429 "Too many requests. Please try again later."
      else if (500 : Nat) = 402 then
        SResponse.errJson 402 "Service limit reached. Please try again later."
      else SResponse.errJson 500 "An error occurred processing your request") :=
  ⟨fetch_and_upstream_status_mapping.1
      "https://docs.google.com/document/d/ABC123/edit"
      { status := 403, contentLength := none, bodyText := "" } "ABC123"
      (by decide) (by decide),
    fetch_and_upstream_status_mapping.2.1 { demoEnv with aiStatus := 500 }
      ⟨some "q", some "https://docs.google.com/document/d/ABC123/edit", demoHistory⟩
      "doc text" [Effect.docFetch (exportUrlOf "ABC123"), Effect.readBody]
      (by decide) (by decide) (by decide) (by decide) (by decide) (by decide)⟩

/-- C6: a successful-status document fetch whose content-length header is
present and parses to a value above the five-megabyte limit fails with
DocumentTooLarge without reading the body (no read effect is recorded); and
when the header guard does not fire but the body actually read exceeds the
limit, the fetch also fails with DocumentTooLarge. -/
theorem fetch_too_large :
    (∀ (url : String) (resp : FetchResp) (docId : String) (s : String) (v : Int),
      extractDocId url = some docId →
      200 ≤ resp.status → resp.status ≤ 299 →
      resp.contentLength = some s → s ≠ "" → jsParseInt s = some v →
      v > (MAX_DOCUMENT_SIZE : Int) →
      fetchGoogleDocContent url resp =
        (.error .tooLarge, [Effect.docFetch (exportUrlOf docId)]))
    ∧ (∀ (url : String) (resp : FetchResp) (docId : String),
      extractDocId url = some docId →
      200 ≤ resp.status → resp.status ≤ 299 →
      headerTooLarge resp = false →
      resp.bodyText.length > MAX_DOCUMENT_SIZE →
      fetchGoogleDocContent url resp =
        (.error .tooLarge,
          [Effect.docFetch (exportUrlOf docId), Effect.readBody])) := by
  constructor
  · intro url resp docId s v hid h1 h2 hcl hs hv hgt
    have hhdr : headerTooLarge resp = true := by
      simp [headerTooLarge, hcl, hs, hv, hgt]
    simp [fetchGoogleDocContent, hid, h1, h2, hhdr]
  · intro url resp docId hid h1 h2 hhdr hbig
    simp [fetchGoogleDocContent, hid, h1, h2, hhdr, hbig, Nat.not_le_of_lt hbig]

/-- Witness for C6 at concrete inputs: a declared content length of 6000000
is rejected without the body read, and an actually oversized body with no
header is rejected after the read. -/
theorem fetch_too_large_witness :
    fetchGoogleDocContent "https://docs.google.com/document/d/ABC123/edit"
        { status := 200, contentLength := some "6000000", bodyText := "hi" } =
      (.error .tooLarge, [Effect.docFetch (exportUrlOf "ABC123")])
    ∧ fetchGoogleDocContent "https://docs.google.com/document/d/ABC123/edit"
        { status := 200, contentLength := none, bodyText := bigBody } =
      (.error .tooLarge,
        [Effect.docFetch (exportUrlOf "ABC123"), Effect.readBody]) :=
  ⟨fetch_too_large.1 "https://docs.google.com/document/d/ABC123/edit"
      { status := 200, contentLength := some "6000000", bodyText := "hi" }
      "ABC123" "6000000" 6000000
      (by decide) (by decide) (by decide) (by decide) (by decide) (by decide)
      (by decide),
    fetch_too_large.2 "https://docs.google.com/document/d/ABC123/edit"
      { status := 200, contentLength := none, bodyText := bigBody }
      "ABC123" (by decide) (by decide) (by decide) rfl
      (by
        have h1 : bigBody.length = (List.replicate 5242881 'a').length := rfl
        show bigBody.length > MAX_DOCUMENT_SIZE
        rw [h1, List.length_replicate]
        decide)⟩

/-- C7: the document identifier is derived by trying, in priority order, the
path-embedded pattern, the query-parameter pattern, then the bare-identifier
pattern, with the first matching pattern winning; the sample Google Docs edit
URL yields the identifier ABC123; and when no pattern matches, the fetch
fails with InvalidDocumentFormat before any outbound effect. -/
theorem extract_doc_id_priority :
    (∀ (url : String) (cap : List Char),
      scanCapture docIdPat1 url.toList = some cap →
      extractDocId url = some (String.mk cap))
    ∧ (∀ (url : String) (cap : List Char),
      scanCapture docIdPat1 url.toList = none →
      scanCapture docIdPat2 url.toList = some cap →
      extractDocId url = some (String.mk cap))
    ∧ (∀ url : String,
      scanCapture docIdPat1 url.toList = none →
      scanCapture docIdPat2 url.toList = none →
      extractDocId url =
        (if url.toList ≠ [] ∧ url.toList.all isIdChar then some url else none))
    ∧ extractDocId "https://docs.google.com/document/d/ABC123/edit" = some "ABC123"
    ∧ (∀ (url : String) (resp : FetchResp),
      extractDocId url = none →
      fetchGoogleDocContent url resp = (.error .invalidFormat, [])) := by
  refine ⟨?_, ?_, ?_, ?_, ?_⟩
  · intro url cap h1
    have h1d : scanCapture docIdPat1 url.data = some cap := h1
    simp [extractDocId, h1d]
  · intro url cap h1 h2
    have h1d : scanCapture docIdPat1 url.data = none := h1
    have h2d : scanCapture docIdPat2 url.data = some cap := h2
    simp [extractDocId, h1d, h2d]
  · intro url h1 h2
    have h1d : scanCapture docIdPat1 url.data = none := h1
    have h2d : scanCapture docIdPat2 url.data = none := h2
    simp [extractDocId, h1d, h2d]
  · decide
  · intro url resp h
    simp [fetchGoogleDocContent, h]

/-- Witness for C7 at a concrete input: a URL matching none of the three
patterns makes the fetch fail with InvalidDocumentFormat and no effect. -/
theorem extract_doc_id_priority_witness :
    fetchGoogleDocContent "https://docs.google.com/" demoEnv.docResp =
      (.error .invalidFormat, []) :=
  extract_doc_id_priority.2.2.2.2 "https://docs.google.com/" demoEnv.docResp
    (by decide)

/-!  Helper lemmas about the decoder primitives. -/

/-- Appending one whitespace character does not change the trim. -/
theorem trim_concat_ws {c : Char} (hc : jsWs c = true) (x : List Char) :
    trimList (x ++ [c]) = trimList x := by
  simp [trimList, List.reverse_append, List.dropWhile_cons, hc]

/-- The trim of a list is empty exactly when all its characters are
whitespace. -/
theorem trim_eq_nil_iff (x : List Char) :
    trimList x = [] ↔ ∀ c ∈ x, jsWs c = true := by
  unfold trimList
  rw [List.dropWhile_eq_nil_iff]
  constructor
  · intro h c hc
    have hcr : c ∈ x.reverse := List.mem_reverse.mpr hc
    rw [← List.takeWhile_append_dropWhile (p := jsWs) (l := x.reverse)] at hcr
    rcases List.mem_append.mp hcr with h1 | h1
    · exact List.mem_takeWhile_imp h1
    · exact h c (List.mem_reverse.mpr h1)
  · intro h c hc
    have hc2 : c ∈ List.dropWhile jsWs x.reverse := List.mem_reverse.mp hc
    exact h c (List.mem_reverse.mp (List.Sublist.mem hc2 (List.dropWhile_sublist _)))

/-- A list whose last element is a carriage return splits off that element. -/
theorem exists_concat_of_getLast_cr {y : List Char}
    (h : y.getLast? = some '\r') : y = y.dropLast ++ ['\r'] := by
  rcases y.eq_nil_or_concat with rfl | ⟨z, c, hy⟩
  · simp at h
  · have hc : c = '\r' := by
      rw [hy] at h
      simpa using h
    rw [hy, hc]
    simp

/-- splitOnNl never returns the empty list. -/
theorem splitOnNl_ne_nil (x : List Char) : splitOnNl x ≠ [] := by
  induction x with
  | nil => simp [splitOnNl]
  | cons c cs ih =>
    by_cases h : c = '\n'
    · simp [splitOnNl, h]
    · rw [show splitOnNl (c :: cs) = (splitOnNl cs).modifyHead (c :: ·) from by
        simp [splitOnNl, h]]
      rcases hs : splitOnNl cs with _ | ⟨p, ps⟩
      · exact absurd hs ih
      · simp [List.modifyHead]

/-- Splitting a buffer that starts with a newline-terminated line yields that
line followed by the split of the remainder. -/
theorem splitOnNl_append_nl {l : List Char} (hl : '\n' ∉ l) (x : List Char) :
    splitOnNl (l ++ '\n' :: x) = l :: splitOnNl x := by
  induction l with
  | nil => simp [splitOnNl]
  | cons c l' ih =>
    have hc : c ≠ '\n' := fun h => hl (h ▸ List.mem_cons_self c l')
    have hl' : '\n' ∉ l' := fun h => hl (List.mem_cons_of_mem c h)
    simp [splitOnNl, hc, ih hl']

/-- The split of a buffer is the single empty piece exactly when the buffer
is empty. -/
theorem splitOnNl_eq_single_nil {x : List Char} (h : splitOnNl x = [[]]) :
    x = [] := by
  cases x with
  | nil => rfl
  | cons c cs =>
    exfalso
    by_cases hc : c = '\n'
    · simp [splitOnNl, hc] at h
      exact splitOnNl_ne_nil cs h
    · rw [show splitOnNl (c :: cs) = (splitOnNl cs).modifyHead (c :: ·) from by
        simp [splitOnNl, hc]] at h
      rcases hs : splitOnNl cs with _ | ⟨p, ps⟩
      · exact splitOnNl_ne_nil cs hs
      · rw [hs] at h
        simp [List.modifyHead] at h

/-- Appending one character not occurring in the pattern does not change
whether the pattern is a prefix. -/
theorem isPrefixOf_concat_of_not_mem {p x : List Char} {c : Char}
    (hc : c ∉ p) : p.isPrefixOf (x ++ [c]) = p.isPrefixOf x := by
  cases hx : p.isPrefixOf x with
  | true =>
    have : p <+: x := List.isPrefixOf_iff_prefix.mp hx
    exact List.isPrefixOf_iff_prefix.mpr (this.trans (List.prefix_append x [c]))
  | false =>
    rw [Bool.eq_false_iff]
    intro hx2
    have hpre : p <+: x ++ [c] := List.isPrefixOf_iff_prefix.mp hx2
    have hlen : p.length ≤ x.length + 1 := by simpa using hpre.length_le
    rcases Nat.lt_or_ge p.length (x.length + 1) with hl | hl
    · have htake : p = (x ++ [c]).take p.length := List.prefix_iff_eq_take.mp hpre
      rw [List.take_append_of_le_length (by omega)] at htake
      have : p <+: x := htake ▸ List.take_prefix _ x
      rw [List.isPrefixOf_iff_prefix.mpr this] at hx
      exact Bool.noConfusion hx
    · have hpl : p.length = (x ++ [c]).length := by simp; omega
      have : p = x ++ [c] := List.IsPrefix.eq_of_length hpre hpl
      exact hc (this ▸ List.mem_append.mpr (Or.inr (List.mem_singleton.mpr rfl)))

/-- Classification only depends on the head, the trim, the data-tag test and
the trimmed payload of a line. -/
theorem classify_congr (parse : List Char → Option (Option (List Char)))
    {x y : List Char}
    (hh : x.head? = y.head?) (ht : trimList x = trimList y)
    (hp : dataPref.isPrefixOf x = dataPref.isPrefixOf y)
    (hd : trimList (x.drop 6) = trimList (y.drop 6)) :
    classifyLine parse x = classifyLine parse y := by
  unfold classifyLine
  rw [hh, ht, hp, hd]

/-- Dropping the tag length from a line with a trailing carriage return
appended gives the same trimmed payload. -/
theorem trim_drop6_concat_cr (l : List Char) :
    trimList ((l ++ ['\r']).drop 6) = trimList (l.drop 6) := by
  rcases le_or_lt 6 l.length with h | h
  · rw [List.drop_append_of_le_length h]
    exact trim_concat_ws (by decide) _
  · rw [List.drop_of_length_le (by simp; omega),
      List.drop_of_length_le (by omega)]

/-- Classifications of a line and of the line with one trailing carriage
return appended agree: the strip and the trim make the classification blind
to trailing carriage returns. -/
theorem classify_concat_cr (parse : List Char → Option (Option (List Char)))
    (z : List Char) :
    classifyLine parse (z ++ ['\r']) = classifyLine parse z := by
  cases z with
  | nil =>
    have e1 : classifyLine parse ['\r'] = .skip := rfl
    have e2 : classifyLine parse [] = .skip := rfl
    rw [show ([] : List Char) ++ ['\r'] = ['\r'] from rfl, e1, e2]
  | cons a z' =>
    exact classify_congr parse rfl (trim_concat_ws (by decide) _)
      (isPrefixOf_concat_of_not_mem (by decide)) (trim_drop6_concat_cr _)

/-- Stripping the trailing carriage return does not change the
classification. -/
theorem classify_stripCR (parse : List Char → Option (Option (List Char)))
    (y : List Char) :
    classifyLine parse (stripCR y) = classifyLine parse y := by
  unfold stripCR
  by_cases h : y.getLast? = some '\r'
  · rw [if_pos h]
    conv_rhs => rw [exists_concat_of_getLast_cr h]
    exact (classify_concat_cr parse y.dropLast).symm
  · rw [if_neg h]

/-- A piece is a termination line exactly when the reading loop classifies
its CR-stripped form as the terminator; the test does not involve the parse
oracle. -/
theorem isDoneLine_iff (parse : List Char → Option (Option (List Char)))
    (p : List Char) :
    isDoneLine p = true ↔ classifyLine parse (stripCR p) = .finish := by
  simp only [isDoneLine, classifyLine]
  by_cases h1 : ((stripCR p).head? = some ':' ∨ trimList (stripCR p) = [])
  · rw [if_pos h1, if_pos h1]
    simp
  · rw [if_neg h1, if_neg h1]
    by_cases h2 : dataPref.isPrefixOf (stripCR p) = false
    · rw [if_pos h2, if_pos h2]
      simp
    · rw [if_neg h2, if_neg h2]
      by_cases h3 : trimList ((stripCR p).drop 6) = doneTok
      · rw [if_pos h3]
        simp [h3]
      · rw [if_neg h3]
        constructor
        · intro h
          exact absurd (of_decide_eq_true h) h3
        · intro h
          exfalso
          cases hp : parse (trimList ((stripCR p).drop 6)) with
          | none =>
            rw [hp] at h
            simp at h
          | some oc =>
            cases oc with
            | none =>
              rw [hp] at h
              simp at h
            | some c =>
              rw [hp] at h
              by_cases hc : c = [] <;> simp [hc] at h

/-- A line classified as emitting a fragment makes the flush emit exactly
that fragment. -/
theorem flushLine_of_out {parse : List Char → Option (Option (List Char))}
    {l c : List Char} (h : classifyLine parse (stripCR l) = .out c) :
    flushLine parse l = some c := by
  have hne : l ≠ [] := by
    rintro rfl
    rw [show stripCR ([] : List Char) = [] from rfl,
      show classifyLine parse [] = .skip from rfl] at h
    simp at h
  simp [flushLine, hne, h]

/-- A line classified as skippable makes the flush emit nothing. -/
theorem flushLine_of_skip {parse : List Char → Option (Option (List Char))}
    {l : List Char} (h : classifyLine parse (stripCR l) = .skip) :
    flushLine parse l = none := by
  by_cases hne : l = []
  · simp [flushLine, hne]
  · simp [flushLine, hne, h]

/-- A termination line makes the flush emit nothing. -/
theorem flushLine_of_finish {parse : List Char → Option (Option (List Char))}
    {l : List Char} (h : classifyLine parse (stripCR l) = .finish) :
    flushLine parse l = none := by
  by_cases hne : l = []
  · simp [flushLine, hne]
  · simp [flushLine, hne, h]

/-- A line whose payload fails to parse makes the flush emit nothing. -/
theorem flushLine_of_fail {parse : List Char → Option (Option (List Char))}
    {l : List Char} (h : classifyLine parse (stripCR l) = .fail) :
    flushLine parse l = none := by
  by_cases hne : l = []
  · simp [flushLine, hne]
  · simp [flushLine, hne, h]

/-- Unfolding of the invariance side condition on a cons with nonempty
tail. -/
theorem okPiecesB_cons {p : List Char} {ps : List (List Char)} (hne : ps ≠ []) :
    okPiecesB (p :: ps) =
      (if isDoneLine p then decide (ps = [[]]) else okPiecesB ps) := by
  cases ps with
  | nil => exact absurd rfl hne
  | cons q qs => rfl

/-- The invariance side condition is preserved by dropping the first
piece. -/
theorem okPiecesB_tail {p : List Char} {ps : List (List Char)}
    (h : okPiecesB (p :: ps) = true) : okPiecesB ps = true := by
  cases ps with
  | nil => rfl
  | cons q qs =>
    rw [okPiecesB_cons (by simp)] at h
    by_cases hd : isDoneLine p = true
    · rw [if_pos hd] at h
      have h2 : q :: qs = [[]] := of_decide_eq_true h
      rw [h2]
      rfl
    · rwa [if_neg hd] at h

/-- All characters of any piece of an all-whitespace buffer are
whitespace. -/
theorem allWs_of_mem_splitOnNl {b : List Char} (hb : ∀ c ∈ b, jsWs c = true)
    {p : List Char} (hp : p ∈ splitOnNl b) : ∀ c ∈ p, jsWs c = true := by
  induction b generalizing p with
  | nil =>
    simp [splitOnNl] at hp
    subst hp
    simp
  | cons c cs ih =>
    have hc := hb c (List.mem_cons_self c cs)
    have hcs : ∀ x ∈ cs, jsWs x = true := fun x hx => hb x (List.mem_cons_of_mem c hx)
    by_cases hnc : c = '\n'
    · rw [show splitOnNl (c :: cs) = [] :: splitOnNl cs from by
        simp [splitOnNl, hnc]] at hp
      rcases List.mem_cons.mp hp with rfl | hp2
      · simp
      · exact ih hcs hp2
    · rw [show splitOnNl (c :: cs) = (splitOnNl cs).modifyHead (c :: ·) from by
        simp [splitOnNl, hnc]] at hp
      rcases hs : splitOnNl cs with _ | ⟨q, qs⟩
      · exact absurd hs (splitOnNl_ne_nil cs)
      · rw [hs] at hp
        simp only [List.modifyHead, List.mem_cons] at hp
        rcases hp with rfl | hp2
        · intro x hx
          rcases List.mem_cons.mp hx with rfl | hx2
          · exact hc
          · exact ih hcs (hs ▸ List.mem_cons_self q qs) x hx2
        · exact ih hcs (hs ▸ List.mem_cons_of_mem q hp2)

/-- An all-whitespace piece makes the flush emit nothing. -/
theorem flushLine_none_of_all_ws {parse : List Char → Option (Option (List Char))}
    {p : List Char} (h : ∀ c ∈ p, jsWs c = true) :
    flushLine parse p = none := by
  by_cases hne : p = []
  · simp [flushLine, hne]
  · apply flushLine_of_skip
    have hsub : ∀ c ∈ stripCR p, jsWs c = true := by
      intro c hc
      apply h
      unfold stripCR at hc
      by_cases hl : p.getLast? = some '\r'
      · rw [if_pos hl] at hc
        exact List.Sublist.mem hc (List.dropLast_sublist p)
      · rwa [if_neg hl] at hc
    unfold classifyLine
    rw [if_pos (Or.inr ((trim_eq_nil_iff _).mpr hsub))]

/-- The final flush emits exactly the per-piece deltas of the split buffer:
the blank-buffer guard of the source changes nothing, because every piece of
an all-whitespace buffer emits nothing. -/
theorem flushBuffer_eq_filterMap (parse : List Char → Option (Option (List Char)))
    (b : List Char) :
    flushBuffer parse b = (splitOnNl b).filterMap (flushLine parse) := by
  unfold flushBuffer
  by_cases h : trimList b = []
  · rw [if_pos h]
    symm
    rw [List.filterMap_eq_nil_iff]
    intro p hp
    exact flushLine_none_of_all_ws (allWs_of_mem_splitOnNl ((trim_eq_nil_iff b).mp h) hp)
  · rw [if_neg h]

/-- A character not occurring in a line does not occur in its CR-stripped
form. -/
theorem not_mem_stripCR {c : Char} {l : List Char} (h : c ∉ l) :
    c ∉ stripCR l := by
  intro hc
  apply h
  unfold stripCR at hc
  by_cases hl : l.getLast? = some '\r'
  · rw [if_pos hl] at hc
    exact List.Sublist.mem hc (List.dropLast_sublist l)
  · rwa [if_neg hl] at hc

/-- A line classified as anything other than the terminator is not a
termination line. -/
theorem isDoneLine_eq_false_of_classify
    {parse : List Char → Option (Option (List Char))} {p : List Char}
    {act : LineAct} (hcl : classifyLine parse (stripCR p) = act)
    (hne : act ≠ .finish) : isDoneLine p = false := by
  cases hb : isDoneLine p with
  | false => rfl
  | true =>
    have hf := (isDoneLine_iff parse p).mp hb
    rw [hcl] at hf
    exact absurd hf hne

/-- Being a termination line is blind to the trailing carriage return. -/
theorem isDoneLine_stripCR (p : List Char) :
    isDoneLine (stripCR p) = isDoneLine p := by
  have h1 := isDoneLine_iff (fun _ => none) (stripCR p)
  have h2 := isDoneLine_iff (fun _ => none) p
  rw [classify_stripCR (fun _ => none) (stripCR p)] at h1
  by_cases hb : isDoneLine p = true
  · rw [hb]
    exact h1.mpr (h2.mp hb)
  · rw [Bool.eq_false_iff.mpr hb]
    cases hc : isDoneLine (stripCR p) with
    | false => rfl
    | true => exact absurd (h2.mpr (h1.mp hc)) hb

/-- Equation: draining an exhausted buffer leaves the partial line. -/
theorem drainLines_nil (parse : List Char → Option (Option (List Char)))
    (acc : List Char) : drainLines parse acc [] = ([], acc.reverse, false) := rfl

/-- Equation: a non-newline character is accumulated into the current
line. -/
theorem drainLines_cons (parse : List Char → Option (Option (List Char)))
    (acc : List Char) {ch : Char} (rest : List Char) (h : ch ≠ '\n') :
    drainLines parse acc (ch :: rest) = drainLines parse (ch :: acc) rest := by
  simp [drainLines, h]

/-- Equation: a skipped line is dropped and draining continues. -/
theorem drainLines_nl_skip (parse : List Char → Option (Option (List Char)))
    (acc rest : List Char)
    (h : classifyLine parse (stripCR acc.reverse) = .skip) :
    drainLines parse acc ('\n' :: rest) = drainLines parse [] rest := by
  simp [drainLines, h]

/-- Equation: a termination line stops draining with the done flag set. -/
theorem drainLines_nl_finish (parse : List Char → Option (Option (List Char)))
    (acc rest : List Char)
    (h : classifyLine parse (stripCR acc.reverse) = .finish) :
    drainLines parse acc ('\n' :: rest) = ([], rest, true) := by
  simp [drainLines, h]

/-- Equation: an emitting line prepends its fragment and draining
continues. -/
theorem drainLines_nl_out (parse : List Char → Option (Option (List Char)))
    (acc rest c : List Char)
    (h : classifyLine parse (stripCR acc.reverse) = .out c) :
    drainLines parse acc ('\n' :: rest) =
      (c :: (drainLines parse [] rest).1, (drainLines parse [] rest).2.1,
        (drainLines parse [] rest).2.2) := by
  simp [drainLines, h]

/-- Equation: a parse failure pushes the stripped line back with its
terminator restored and stops draining. -/
theorem drainLines_nl_fail (parse : List Char → Option (Option (List Char)))
    (acc rest : List Char)
    (h : classifyLine parse (stripCR acc.reverse) = .fail) :
    drainLines parse acc ('\n' :: rest) =
      ([], stripCR acc.reverse ++ '\n' :: rest, false) := by
  simp [drainLines, h]

/-- Core lemma about one draining pass, for an arbitrary continuation t of
the stream.  Writing s for the buffer (the accumulated partial line followed
by the unread tail), draining satisfies: (1) the per-piece deltas of s
followed by t equal the emitted deltas followed by the per-piece deltas of
the leftover buffer followed by t; (2) the invariance side condition is
preserved from s ++ t to the leftover followed by t; (3) when the done flag
is set and the side condition holds, nothing remains; (4) if no piece of
s ++ t is a termination line the done flag is not set; and (5) in that case
no piece of the leftover followed by t is a termination line either. -/
theorem drain_core (parse : List Char → Option (Option (List Char)))
    (tail : List Char) :
    ∀ (acc t : List Char), '\n' ∉ acc →
      ((splitOnNl (acc.reverse ++ (tail ++ t))).filterMap (flushLine parse)
          = (drainLines parse acc tail).1 ++
            (splitOnNl ((drainLines parse acc tail).2.1 ++ t)).filterMap
              (flushLine parse))
      ∧ (okPiecesB (splitOnNl (acc.reverse ++ (tail ++ t))) = true →
          okPiecesB (splitOnNl ((drainLines parse acc tail).2.1 ++ t)) = true)
      ∧ ((drainLines parse acc tail).2.2 = true →
          okPiecesB (splitOnNl (acc.reverse ++ (tail ++ t))) = true →
          (drainLines parse acc tail).2.1 ++ t = [])
      ∧ ((∀ p ∈ splitOnNl (acc.reverse ++ (tail ++ t)), isDoneLine p = false) →
          (drainLines parse acc tail).2.2 = false)
      ∧ ((∀ p ∈ splitOnNl (acc.reverse ++ (tail ++ t)), isDoneLine p = false) →
          ∀ p ∈ splitOnNl ((drainLines parse acc tail).2.1 ++ t),
            isDoneLine p = false) := by
  induction tail with
  | nil =>
    intro acc t hacc
    refine ⟨?_, ?_, ?_, ?_, ?_⟩ <;> simp [drainLines_nil]
  | cons ch rest ih =>
    intro acc t hacc
    by_cases hch : ch = '\n'
    · subst hch
      have hnl : '\n' ∉ acc.reverse := fun h => hacc (List.mem_reverse.mp h)
      have hsplit : splitOnNl (acc.reverse ++ (('\n' :: rest) ++ t))
          = acc.reverse :: splitOnNl (rest ++ t) := by
        rw [show (('\n' :: rest) ++ t) = '\n' :: (rest ++ t) from rfl]
        exact splitOnNl_append_nl hnl _
      cases hcl : classifyLine parse (stripCR acc.reverse) with
      | skip =>
        obtain ⟨ih1, ih2, ih3, ih4, ih5⟩ := ih [] t (by simp)
        rw [List.reverse_nil, List.nil_append] at ih1 ih2 ih3 ih4 ih5
        have hflush : flushLine parse acc.reverse = none := flushLine_of_skip hcl
        rw [drainLines_nl_skip parse acc rest hcl, hsplit]
        refine ⟨?_, ?_, ?_, ?_, ?_⟩
        · rw [List.filterMap_cons_none hflush]
          exact ih1
        · intro hok
          exact ih2 (okPiecesB_tail hok)
        · intro hdone hok
          exact ih3 hdone (okPiecesB_tail hok)
        · intro hnd
          exact ih4 (fun p hp => hnd p (List.mem_cons_of_mem _ hp))
        · intro hnd
          exact ih5 (fun p hp => hnd p (List.mem_cons_of_mem _ hp))
      | finish =>
        have hflush : flushLine parse acc.reverse = none := flushLine_of_finish hcl
        rw [drainLines_nl_finish parse acc rest hcl, hsplit]
        refine ⟨?_, ?_, ?_, ?_, ?_⟩
        · rw [List.filterMap_cons_none hflush]
          simp
        · intro hok
          exact okPiecesB_tail hok
        · intro _ hok
          have hd : isDoneLine acc.reverse = true :=
            (isDoneLine_iff parse acc.reverse).mpr hcl
          rw [okPiecesB_cons (splitOnNl_ne_nil _), if_pos hd] at hok
          exact splitOnNl_eq_single_nil (of_decide_eq_true hok)
        · intro hnd
          have h1 := hnd acc.reverse (List.mem_cons_self _ _)
          have h2 := (isDoneLine_iff parse acc.reverse).mpr hcl
          rw [h1] at h2
          exact (Bool.false_ne_true h2).elim
        · intro hnd
          have h1 := hnd acc.reverse (List.mem_cons_self _ _)
          have h2 := (isDoneLine_iff parse acc.reverse).mpr hcl
          rw [h1] at h2
          exact (Bool.false_ne_true h2).elim
      | out c =>
        obtain ⟨ih1, ih2, ih3, ih4, ih5⟩ := ih [] t (by simp)
        rw [List.reverse_nil, List.nil_append] at ih1 ih2 ih3 ih4 ih5
        have hflush : flushLine parse acc.reverse = some c := flushLine_of_out hcl
        rw [drainLines_nl_out parse acc rest c hcl, hsplit]
        refine ⟨?_, ?_, ?_, ?_, ?_⟩
        · rw [List.filterMap_cons_some hflush, ih1]
          rfl
        · intro hok
          exact ih2 (okPiecesB_tail hok)
        · intro hdone hok
          exact ih3 hdone (okPiecesB_tail hok)
        · intro hnd
          exact ih4 (fun p hp => hnd p (List.mem_cons_of_mem _ hp))
        · intro hnd
          exact ih5 (fun p hp => hnd p (List.mem_cons_of_mem _ hp))
      | fail =>
        have hnl2 : '\n' ∉ stripCR acc.reverse := not_mem_stripCR hnl
        have hsplit2 : splitOnNl ((stripCR acc.reverse ++ '\n' :: rest) ++ t)
            = stripCR acc.reverse :: splitOnNl (rest ++ t) := by
          rw [List.append_assoc]
          exact splitOnNl_append_nl hnl2 _
        have hcl2 : classifyLine parse (stripCR (stripCR acc.reverse)) = .fail := by
          rw [classify_stripCR]
          exact hcl
        have hflush1 : flushLine parse acc.reverse = none := flushLine_of_fail hcl
        have hflush2 : flushLine parse (stripCR acc.reverse) = none :=
          flushLine_of_fail hcl2
        have hd1 : isDoneLine acc.reverse = false :=
          isDoneLine_eq_false_of_classify hcl (by simp)
        have hd2 : isDoneLine (stripCR acc.reverse) = false := by
          rw [isDoneLine_stripCR]
          exact hd1
        rw [drainLines_nl_fail parse acc rest hcl, hsplit]
        refine ⟨?_, ?_, ?_, ?_, ?_⟩
        · rw [List.filterMap_cons_none hflush1]
          show List.filterMap (flushLine parse) (splitOnNl (rest ++ t))
              = [] ++ List.filterMap (flushLine parse)
                  (splitOnNl ((stripCR acc.reverse ++ '\n' :: rest) ++ t))
          rw [hsplit2, List.filterMap_cons_none hflush2, List.nil_append]
        · intro hok
          show okPiecesB (splitOnNl ((stripCR acc.reverse ++ '\n' :: rest) ++ t))
              = true
          rw [hsplit2, okPiecesB_cons (splitOnNl_ne_nil _),
            if_neg (by rw [hd2]; simp)]
          exact okPiecesB_tail hok
        · intro hdone _
          exact absurd hdone (by simp)
        · intro _
          rfl
        · intro hnd
          show ∀ p ∈ splitOnNl ((stripCR acc.reverse ++ '\n' :: rest) ++ t),
            isDoneLine p = false
          rw [hsplit2]
          intro p hp
          rcases List.mem_cons.mp hp with rfl | hp2
          · exact hd2
          · exact hnd p (List.mem_cons_of_mem _ hp2)
    · have hacc' : '\n' ∉ ch :: acc := by
        intro hm
        rcases List.mem_cons.mp hm with hh | hm2
        · exact hch hh.symm
        · exact hacc hm2
      have hs : acc.reverse ++ ((ch :: rest) ++ t)
          = (ch :: acc).reverse ++ (rest ++ t) := by
        simp
      rw [drainLines_cons parse acc rest hch, hs]
      exact ih (ch :: acc) t hacc'

/-- Equation: a terminated drain stops the reading loop at this chunk. -/
theorem readLoop_cons_done (parse : List Char → Option (Option (List Char)))
    (c : List Char) (cs : List (List Char)) (b : List Char)
    (h : (drainBuffer parse (b ++ c)).2.2 = true) :
    readLoop parse (c :: cs) b = drainBuffer parse (b ++ c) := by
  simp [readLoop, h]

/-- Equation: an unterminated drain hands the leftover buffer to the rest of
the loop. -/
theorem readLoop_cons_cont (parse : List Char → Option (Option (List Char)))
    (c : List Char) (cs : List (List Char)) (b : List Char)
    (h : (drainBuffer parse (b ++ c)).2.2 = false) :
    readLoop parse (c :: cs) b =
      ((drainBuffer parse (b ++ c)).1 ++
          (readLoop parse cs (drainBuffer parse (b ++ c)).2.1).1,
        (readLoop parse cs (drainBuffer parse (b ++ c)).2.1).2.1,
        (readLoop parse cs (drainBuffer parse (b ++ c)).2.1).2.2) := by
  simp [readLoop, h]

/-- Core lemma about the reading loop followed by the final flush: under the
invariance side condition the delivered deltas are exactly the per-piece
deltas of the whole logical stream, and when no piece of the stream is a
termination line the loop is only ended by source exhaustion. -/
theorem readLoop_core (parse : List Char → Option (Option (List Char)))
    (chunks : List (List Char)) :
    ∀ b : List Char,
      (okPiecesB (splitOnNl (b ++ chunks.flatten)) = true →
        (readLoop parse chunks b).1 ++
            flushBuffer parse (readLoop parse chunks b).2.1
          = (splitOnNl (b ++ chunks.flatten)).filterMap (flushLine parse))
      ∧ ((∀ p ∈ splitOnNl (b ++ chunks.flatten), isDoneLine p = false) →
          (readLoop parse chunks b).2.2 = false) := by
  induction chunks with
  | nil =>
    intro b
    constructor
    · intro _
      simp [readLoop, flushBuffer_eq_filterMap]
    · intro _
      rfl
  | cons c cs ih =>
    intro b
    obtain ⟨d1, d2, d3, d4, d5⟩ := drain_core parse (b ++ c) [] cs.flatten (by simp)
    rw [List.reverse_nil, List.nil_append] at d1 d2 d3 d4 d5
    rw [← show drainBuffer parse (b ++ c) = drainLines parse [] (b ++ c) from rfl]
      at d1 d2 d3 d4 d5
    have hassoc : b ++ (c :: cs).flatten = (b ++ c) ++ cs.flatten := by
      rw [List.flatten_cons, ← List.append_assoc]
    by_cases hdone : (drainBuffer parse (b ++ c)).2.2 = true
    · rw [readLoop_cons_done parse c cs b hdone]
      constructor
      · intro hok
        rw [hassoc] at hok
        have h3 := d3 hdone hok
        have hr21 : (drainBuffer parse (b ++ c)).2.1 = [] :=
          (List.append_eq_nil.mp h3).1
        have hcs : cs.flatten = [] := (List.append_eq_nil.mp h3).2
        rw [hassoc, d1, hcs, List.append_nil, flushBuffer_eq_filterMap]
      · intro hnd
        rw [hassoc] at hnd
        exact d4 hnd
    · have hdf : (drainBuffer parse (b ++ c)).2.2 = false :=
        Bool.eq_false_iff.mpr hdone
      rw [readLoop_cons_cont parse c cs b hdf]
      obtain ⟨ihA, ihB⟩ := ih (drainBuffer parse (b ++ c)).2.1
      constructor
      · intro hok
        rw [hassoc] at hok
        rw [hassoc, d1, ← ihA (d2 hok), List.append_assoc]
      · intro hnd
        rw [hassoc] at hnd
        exact ihB (d5 hnd)

/-- What an emitting classification certifies: the line passed the comment,
blank and data-tag guards, the fragment is nonempty, and the parse oracle
produced exactly that fragment on the trimmed payload. -/
theorem classify_out_spec {parse : List Char → Option (Option (List Char))}
    {l c : List Char} (h : classifyLine parse l = .out c) :
    ¬(l.head? = some ':' ∨ trimList l = []) ∧ dataPref.isPrefixOf l = true
    ∧ c ≠ [] ∧ parse (trimList (l.drop 6)) = some (some c) := by
  simp only [classifyLine] at h
  by_cases h1 : (l.head? = some ':' ∨ trimList l = [])
  · rw [if_pos h1] at h
    simp at h
  · rw [if_neg h1] at h
    by_cases h2 : dataPref.isPrefixOf l = false
    · rw [if_pos h2] at h
      simp at h
    · rw [if_neg h2] at h
      by_cases h3 : trimList (l.drop 6) = doneTok
      · rw [if_pos h3] at h
        simp at h
      · rw [if_neg h3] at h
        cases hp : parse (trimList (l.drop 6)) with
        | none =>
          rw [hp] at h
          simp at h
        | some oc =>
          cases oc with
          | none =>
            rw [hp] at h
            simp at h
          | some c' =>
            rw [hp] at h
            by_cases hc : c' = []
            · simp [hc] at h
            · simp [hc] at h
              subst h
              refine ⟨h1, ?_, hc, rfl⟩
              cases hb : dataPref.isPrefixOf l with
              | true => rfl
              | false => exact absurd hb h2

/-- A flush emission certifies an emitting classification of the stripped
piece. -/
theorem flushLine_some_spec {parse : List Char → Option (Option (List Char))}
    {p d : List Char} (h : flushLine parse p = some d) :
    classifyLine parse (stripCR p) = .out d := by
  unfold flushLine at h
  by_cases hne : p = []
  · rw [if_pos hne] at h
    exact absurd h (by simp)
  · rw [if_neg hne] at h
    cases hcl : classifyLine parse (stripCR p) with
    | out c =>
      rw [hcl] at h
      have hcd : c = d := by simpa using h
      rw [← hcd]
    | skip =>
      rw [hcl] at h
      simp at h
    | finish =>
      rw [hcl] at h
      simp at h
    | fail =>
      rw [hcl] at h
      simp at h

/-- Every delta emitted during draining comes from a line with an emitting
classification. -/
theorem mem_drainLines (parse : List Char → Option (Option (List Char)))
    (tail : List Char) :
    ∀ (acc : List Char) (d : List Char), d ∈ (drainLines parse acc tail).1 →
      ∃ l, classifyLine parse l = .out d := by
  induction tail with
  | nil =>
    intro acc d hd
    simp [drainLines_nil] at hd
  | cons ch rest ih =>
    intro acc d hd
    by_cases hch : ch = '\n'
    · subst hch
      cases hcl : classifyLine parse (stripCR acc.reverse) with
      | skip =>
        rw [drainLines_nl_skip parse acc rest hcl] at hd
        exact ih [] d hd
      | finish =>
        rw [drainLines_nl_finish parse acc rest hcl] at hd
        simp at hd
      | out c =>
        rw [drainLines_nl_out parse acc rest c hcl] at hd
        rcases List.mem_cons.mp hd with rfl | hd2
        · exact ⟨stripCR acc.reverse, hcl⟩
        · exact ih [] d hd2
      | fail =>
        rw [drainLines_nl_fail parse acc rest hcl] at hd
        simp at hd
    · rw [drainLines_cons parse acc rest hch] at hd
      exact ih (ch :: acc) d hd

/-- Every delta emitted during the reading loop comes from a line with an
emitting classification. -/
theorem mem_readLoop (parse : List Char → Option (Option (List Char)))
    (chunks : List (List Char)) :
    ∀ (b : List Char) (d : List Char), d ∈ (readLoop parse chunks b).1 →
      ∃ l, classifyLine parse l = .out d := by
  induction chunks with
  | nil =>
    intro b d hd
    simp [readLoop] at hd
  | cons c cs ih =>
    intro b d hd
    by_cases hdone : (drainBuffer parse (b ++ c)).2.2 = true
    · rw [readLoop_cons_done parse c cs b hdone] at hd
      exact mem_drainLines parse (b ++ c) [] d hd
    · rw [readLoop_cons_cont parse c cs b (Bool.eq_false_iff.mpr hdone)] at hd
      rcases List.mem_append.mp hd with hd1 | hd2
      · exact mem_drainLines parse (b ++ c) [] d hd1
      · exact ih _ d hd2

/-- Every delta delivered by the decoder comes from a line with an emitting
classification. -/
theorem mem_streamChat_out (parse : List Char → Option (Option (List Char)))
    (chunks : List (List Char)) (d : List Char)
    (hd : d ∈ streamChat parse chunks) :
    ∃ l, classifyLine parse l = .out d := by
  unfold streamChat at hd
  rcases List.mem_append.mp hd with hd1 | hd2
  · exact mem_readLoop parse chunks [] d hd1
  · rw [flushBuffer_eq_filterMap] at hd2
    rcases List.mem_filterMap.mp hd2 with ⟨p, _, hfl⟩
    exact ⟨stripCR p, flushLine_some_spec hfl⟩

/-- The invariance side condition holds whenever no piece is a termination
line. -/
theorem okPiecesB_of_no_done :
    ∀ ps : List (List Char), (∀ p ∈ ps, isDoneLine p = false) →
      okPiecesB ps = true := by
  intro ps
  induction ps with
  | nil => intro _; rfl
  | cons p qs ih =>
    intro h
    cases qs with
    | nil => rfl
    | cons q qs' =>
      rw [okPiecesB_cons (by simp), if_neg (by
        rw [h p (List.mem_cons_self _ _)]
        simp)]
      exact ih (fun x hx => h x (List.mem_cons_of_mem _ hx))

/-- Under the invariance side condition the decoder delivers exactly the
per-piece deltas of the whole logical stream. -/
theorem streamChat_canonical (parse : List Char → Option (Option (List Char)))
    (chunks : List (List Char))
    (hok : okPiecesB (splitOnNl chunks.flatten) = true) :
    streamChat parse chunks =
      (splitOnNl chunks.flatten).filterMap (flushLine parse) := by
  obtain ⟨hA, _⟩ := readLoop_core parse chunks []
  rw [List.nil_append] at hA
  exact hA hok

/-- Once the reading loop has classified a termination line, appending
further chunks to the source changes nothing: they are never read. -/
theorem readLoop_append_of_done (parse : List Char → Option (Option (List Char)))
    (chunks : List (List Char)) :
    ∀ (b : List Char) (ext : List (List Char)),
      (readLoop parse chunks b).2.2 = true →
      readLoop parse (chunks ++ ext) b = readLoop parse chunks b := by
  induction chunks with
  | nil =>
    intro b ext h
    exact absurd h (by simp [readLoop])
  | cons c cs ih =>
    intro b ext h
    by_cases hd : (drainBuffer parse (b ++ c)).2.2 = true
    · rw [show (c :: cs) ++ ext = c :: (cs ++ ext) from rfl,
        readLoop_cons_done parse c (cs ++ ext) b hd,
        readLoop_cons_done parse c cs b hd]
    · have hdf := Bool.eq_false_iff.mpr hd
      have h' : (readLoop parse cs (drainBuffer parse (b ++ c)).2.1).2.2 = true := by
        rw [readLoop_cons_cont parse c cs b hdf] at h
        exact h
      rw [show (c :: cs) ++ ext = c :: (cs ++ ext) from rfl,
        readLoop_cons_cont parse c (cs ++ ext) b hdf,
        readLoop_cons_cont parse c cs b hdf,
        ih _ ext h']

/-- Draining a buffer that starts with a complete newline-terminated line
reduces to draining with that line accumulated. -/
theorem drainLines_until_nl (parse : List Char → Option (Option (List Char)))
    (l : List Char) :
    ∀ (acc r : List Char), '\n' ∉ l →
      drainLines parse acc (l ++ '\n' :: r) =
        drainLines parse (l.reverse ++ acc) ('\n' :: r) := by
  induction l with
  | nil =>
    intro acc r _
    simp
  | cons c l' ih =>
    intro acc r hl
    have hc : c ≠ '\n' := fun h => hl (h ▸ List.mem_cons_self c l')
    have hl' : '\n' ∉ l' := fun h => hl (List.mem_cons_of_mem c h)
    rw [show (c :: l') ++ '\n' :: r = c :: (l' ++ '\n' :: r) from rfl,
      drainLines_cons parse acc _ hc, ih (c :: acc) r hl']
    simp

/-!  Theorems about the stream decoder. -/

/-- Counterexample for C1 at a concrete input: in a single received chunk
holding a termination line followed by a complete data line, the reading
loop classifies the termination line (the done flag is set), yet the final
flush still delivers the delta of the buffered data line after it. -/
theorem streamChat_flush_after_done_cex :
    (readLoop demoParse [doneChunk ++ xChunk] []).2.2 = true
    ∧ streamChat demoParse [doneChunk ++ xChunk] = [['X']] := by
  decide

/-- C1 (amended): once a termination line has been classified, the reading
loop terminates immediately: chunks arriving after that point are never read
and contribute no deltas, so the decoder output is unchanged by any
extension of the source.  (Data lines already present in the accumulated
buffer after the termination line are still processed by the final flush,
as the counterexample shows.) -/
theorem streamChat_done_stops_reading
    (parse : List Char → Option (Option (List Char)))
    (chunks ext : List (List Char))
    (h : (readLoop parse chunks []).2.2 = true) :
    streamChat parse (chunks ++ ext) = streamChat parse chunks := by
  show (readLoop parse (chunks ++ ext) []).1 ++
      flushBuffer parse (readLoop parse (chunks ++ ext) []).2.1
    = streamChat parse chunks
  rw [readLoop_append_of_done parse chunks [] ext h]
  rfl

/-- Witness for C1 at a concrete input: after a chunk holding only the
termination line, a further chunk holding a data line is never read. -/
theorem streamChat_done_stops_reading_witness :
    (readLoop demoParse [doneChunk] []).2.2 = true
    ∧ streamChat demoParse ([doneChunk] ++ [xChunk])
        = streamChat demoParse [doneChunk] :=
  ⟨by decide, streamChat_done_stops_reading demoParse [doneChunk] [xChunk]
    (by decide)⟩

/-- Counterexample for C2 at a concrete input: the same logical byte
sequence, a termination line followed by a data line, delivers different
delta sequences when split at the line boundary and when delivered as one
single chunk. -/
theorem streamChat_chunking_cex :
    streamChat demoParse [doneChunk, xChunk] ≠
      streamChat demoParse [doneChunk ++ xChunk] := by
  decide

/-- C2 (amended): for every logical character stream in which no text
follows a termination line, and every partition of it into chunks (including
partitions splitting a line or a record across a chunk boundary), the
decoder delivers the same ordered delta sequence as when the whole stream
arrives as one single chunk; and a complete line whose payload fails to
parse is pushed back onto the front of the buffer with its terminator
restored, never dropped, with draining paused until more bytes arrive. -/
theorem streamChat_chunking_invariant
    (parse : List Char → Option (Option (List Char)))
    (chunks : List (List Char))
    (hok : okPiecesB (splitOnNl chunks.flatten) = true) :
    streamChat parse chunks = streamChat parse [chunks.flatten]
    ∧ ∀ (l r : List Char), '\n' ∉ l →
        classifyLine parse (stripCR l) = .fail →
        drainBuffer parse (l ++ '\n' :: r) =
          ([], stripCR l ++ '\n' :: r, false) := by
  constructor
  · have h2 : ([chunks.flatten] : List (List Char)).flatten = chunks.flatten := by
      simp
    rw [streamChat_canonical parse chunks hok,
      streamChat_canonical parse [chunks.flatten] (by rw [h2]; exact hok), h2]
  · intro l r hnl hfail
    unfold drainBuffer
    rw [drainLines_until_nl parse l [] r hnl, List.append_nil]
    have hfail' : classifyLine parse (stripCR l.reverse.reverse) = .fail := by
      rw [List.reverse_reverse]
      exact hfail
    rw [drainLines_nl_fail parse l.reverse r hfail', List.reverse_reverse]

/-- Witness for C2 at a concrete input: a data line split mid-record across
two chunks delivers the same delta sequence as the single-chunk delivery. -/
theorem streamChat_chunking_invariant_witness :
    okPiecesB (splitOnNl ([splitChunkA, splitChunkB] : List (List Char)).flatten)
        = true
    ∧ streamChat demoParse [splitChunkA, splitChunkB]
        = streamChat demoParse
            [([splitChunkA, splitChunkB] : List (List Char)).flatten] :=
  ⟨by decide,
    (streamChat_chunking_invariant demoParse [splitChunkA, splitChunkB]
      (by decide)).1⟩

/-- C8: a payload that fails to parse never aborts decoding: if no piece of
the stream is a termination line, the reading loop is only ended by source
exhaustion (the done flag is never set), and every delta ever delivered
comes from a payload the parse oracle accepted with a nonempty content
fragment, so a malformed line contributes nothing and produces no
user-visible error. -/
theorem stream_parse_failure_nonfatal
    (parse : List Char → Option (Option (List Char)))
    (chunks : List (List Char)) :
    ((∀ p ∈ splitOnNl chunks.flatten, isDoneLine p = false) →
      (readLoop parse chunks []).2.2 = false)
    ∧ (∀ d ∈ streamChat parse chunks,
        d ≠ [] ∧ ∃ s, parse s = some (some d)) := by
  constructor
  · intro hnd
    obtain ⟨_, hB⟩ := readLoop_core parse chunks []
    apply hB
    rw [List.nil_append]
    exact hnd
  · intro d hd
    obtain ⟨l, hcl⟩ := mem_streamChat_out parse chunks d hd
    obtain ⟨_, _, hc, hp⟩ := classify_out_spec hcl
    exact ⟨hc, trimList (l.drop 6), hp⟩

/-- Witness for C8 at a concrete input: a malformed data line followed by a
good data line does not set the done flag, is dropped, and the good delta is
still delivered. -/
theorem stream_parse_failure_nonfatal_witness :
    (readLoop demoParse [badChunk] []).2.2 = false
    ∧ streamChat demoParse [badChunk] = [['X']] :=
  ⟨(stream_parse_failure_nonfatal demoParse [badChunk]).1 (by decide), by decide⟩

/-- C9: comment lines (leading colon) and blank lines never reach the delta
callback: a stream consisting only of such lines delivers nothing, and every
delivered delta originates from a non-blank, non-comment line carrying the
data tag whose payload the parse oracle accepted. -/
theorem stream_skips_comments_and_blanks
    (parse : List Char → Option (Option (List Char)))
    (chunks : List (List Char)) :
    ((∀ p ∈ splitOnNl chunks.flatten,
        (stripCR p).head? = some ':' ∨ trimList (stripCR p) = []) →
      streamChat parse chunks = [])
    ∧ (∀ d ∈ streamChat parse chunks,
        ∃ l, ¬(l.head? = some ':' ∨ trimList l = [])
          ∧ dataPref.isPrefixOf l = true
          ∧ parse (trimList (l.drop 6)) = some (some d)) := by
  constructor
  · intro hskip
    have hnd : ∀ p ∈ splitOnNl chunks.flatten, isDoneLine p = false := by
      intro p hp
      have hcls : classifyLine parse (stripCR p) = .skip := by
        unfold classifyLine
        rw [if_pos (hskip p hp)]
      exact isDoneLine_eq_false_of_classify hcls (by simp)
    rw [streamChat_canonical parse chunks (okPiecesB_of_no_done _ hnd),
      List.filterMap_eq_nil_iff]
    intro p hp
    apply flushLine_of_skip
    unfold classifyLine
    rw [if_pos (hskip p hp)]
  · intro d hd
    obtain ⟨l, hcl⟩ := mem_streamChat_out parse chunks d hd
    obtain ⟨hg, hpref, _, hp⟩ := classify_out_spec hcl
    exact ⟨l, hg, hpref, hp⟩

/-- Witness for C9 at a concrete input: a stream consisting of one comment
line and blank lines delivers no deltas. -/
theorem stream_skips_comments_and_blanks_witness :
    streamChat demoParse [commentChunk] = [] :=
  (stream_skips_comments_and_blanks demoParse [commentChunk]).1 (by decide)
